import Mathlib

/-!
Verification of the t-SNE numeric core in `src/tsne/tsne.cc`.

The C++ code works on `distribution<Float>` (dense real vectors) and
`boost::multi_array<float, 2>` (dense real matrices).  We embed vectors of
length `n` as functions `Fin n → ℝ` and matrices as a `Mat` structure that
records its two dimensions, and we embed C++ `double`/`float` arithmetic as
exact real arithmetic (`Real.exp` / `Real.log` for `exp` / `log`).
C++ exceptions become `Except TsneError`.  The `±INFINITY` initial values of
the binary-search bounds become `Option ℝ` (with `none` standing for the
infinite, not-yet-assigned bound, exactly matching the `isfinite` tests of
the source).
-/

namespace Tsne

/-- Unnormalized weight vector of `perplexity_and_prob` (tsne.cc line 27-28):
`P = exp(D * beta)` followed by `if (i != -1) P[i] = 0`.  Note that the
source multiplies by `+beta` inside the exponential. -/
noncomputable def papWeights {n : ℕ} (D : Fin n → ℝ) (beta : ℝ)
    (i : Option (Fin n)) : Fin n → ℝ :=
  fun j => if some j = i then 0 else Real.exp (D j * beta)

/-- Embedding of `tot = P.total()` of tsne.cc line 29: the sum of the weights. -/
noncomputable def papTot {n : ℕ} (D : Fin n → ℝ) (beta : ℝ)
    (i : Option (Fin n)) : ℝ :=
  ∑ j, papWeights D beta i j

/-- Embedding of `perplexity_and_prob` (tsne.cc lines 22-33): returns the
pair `(H, P)` with `H = log(tot) + beta * D.dotprod(P) / tot` (computed on
the unnormalized weights) and the row `P` normalized by `tot`. -/
noncomputable def perplexity_and_prob {n : ℕ} (D : Fin n → ℝ) (beta : ℝ)
    (i : Option (Fin n)) : ℝ × (Fin n → ℝ) :=
  (Real.log (papTot D beta i) +
      beta * (∑ j, D j * papWeights D beta i j) / papTot D beta i,
   fun j => papWeights D beta i j / papTot D beta i)

/-- Weight vector as the specification states it (`w_j = exp(-beta·D_i[j])`,
with `w_i` forced to `0` when `i` is given).  This definition follows the
words of the spec, not the source; it exists only to be compared with
`papWeights`, which follows the source. -/
noncomputable def specWeights {n : ℕ} (D : Fin n → ℝ) (beta : ℝ)
    (i : Option (Fin n)) : Fin n → ℝ :=
  fun j => if some j = i then 0 else Real.exp (-beta * D j)

/-- Probability row as the specification states it: `P_i[j] = w_j / W` for
the spec weights `w_j = exp(-beta·D_i[j])`. -/
noncomputable def specProbRow {n : ℕ} (D : Fin n → ℝ) (beta : ℝ)
    (i : Option (Fin n)) : Fin n → ℝ :=
  fun j => specWeights D beta i j / ∑ k, specWeights D beta i k

/-- Embedding of `sum_X[i] = vec_dotprod_dp(&X[i][0], &X[i][0], d)` of tsne.cc line 60:
the squared norm of point `i`. -/
noncomputable def sum_X {n d : ℕ} (X : Fin n → Fin d → ℝ) : Fin n → ℝ :=
  fun i => ∑ k, X i k * X i k

/-- Embedding of `XXT = multiply_transposed(X, X)` of tsne.cc line 63: the inner-product
matrix `X·Xᵗ`. -/
noncomputable def XXT {n d : ℕ} (X : Fin n → Fin d → ℝ) :
    Fin n → Fin n → ℝ :=
  fun i j => ∑ k, X i k * X j k

/-- Embedding of `vectors_to_distances` (tsne.cc lines 47-73).  The source
fills `D[i][j] = D[j][i] = sum_X[i] + sum_X[j] - 2 * XXT[i][j]` for `j ≥ i`;
since that expression is symmetric in `i` and `j`, every entry equals it. -/
noncomputable def vectors_to_distances {n d : ℕ} (X : Fin n → Fin d → ℝ) :
    Fin n → Fin n → ℝ :=
  fun i j => sum_X X i + sum_X X j - 2 * XXT X i j

/-- State of the binary search of `binary_search_perplexity` (tsne.cc lines
92-119).  `betamin` / `betamax` start at `-INFINITY` / `+INFINITY`; the source
only ever tests them with `isfinite` and overwrites them with finite values,
so we embed the infinite initial values as `none`.  `iters` counts executed
loop iterations. -/
structure BspState (n : ℕ) where
  betamin : Option ℝ
  betamax : Option ℝ
  beta : ℝ
  H : ℝ
  P : Fin n → ℝ
  iters : ℕ

/-- Builds the state reached after one loop body: the new bounds and beta,
and the recomputation `perplexity_and_prob(Di, beta)` of tsne.cc line 118 —
note that the source omits the argument `i` there, so the self entry is
*not* zeroed in any recomputation. -/
noncomputable def bspNext {n : ℕ} (D : Fin n → ℝ) (bmin bmax : Option ℝ)
    (beta : ℝ) (iters : ℕ) : BspState n :=
  { betamin := bmin, betamax := bmax, beta := beta,
    H := (perplexity_and_prob D beta none).1,
    P := (perplexity_and_prob D beta none).2,
    iters := iters + 1 }

/-- One iteration of the search loop (tsne.cc lines 105-118).  In the
`else` branch the source first assigns `betamax = beta` and then reads the
*new* `betamax` in `beta = (beta + betamax) * 0.5`, which is why that branch
sets the new beta to `(beta + beta) * (1/2)`. -/
noncomputable def bspStep {n : ℕ} (D : Fin n → ℝ) (logT : ℝ)
    (st : BspState n) : BspState n :=
  if logT < st.H then
    match st.betamax with
    | none => bspNext D (some st.beta) none (st.beta * 2) st.iters
    | some bmax =>
        bspNext D (some st.beta) (some bmax) ((st.beta + bmax) * (1/2)) st.iters
  else
    match st.betamin with
    | none => bspNext D none (some st.beta) (st.beta / 2) st.iters
    | some a =>
        bspNext D (some a) (some st.beta) ((st.beta + st.beta) * (1/2)) st.iters

/-- The search loop (tsne.cc lines 101-119): up to `fuel` further
iterations, stopping as soon as `|H - logT| ≤ tol`.  The source runs it with
`fuel = 50`. -/
noncomputable def bspLoop {n : ℕ} (D : Fin n → ℝ) (logT tol : ℝ) :
    ℕ → BspState n → BspState n
  | 0, st => st
  | fuel + 1, st =>
      if |st.H - logT| ≤ tol then st
      else bspLoop D logT tol fuel (bspStep D logT st)

/-- The state before the loop (tsne.cc lines 92-99): unbounded `betamin` and
`betamax`, `beta = 1`, and the initial `perplexity_and_prob(Di, beta, i)`
computation, which does receive `i`. -/
noncomputable def bspInit {n : ℕ} (D : Fin n → ℝ) (i : Fin n) : BspState n :=
  { betamin := none, betamax := none, beta := 1,
    H := (perplexity_and_prob D 1 (some i)).1,
    P := (perplexity_and_prob D 1 (some i)).2,
    iters := 0 }

/-- Embedding of `binary_search_perplexity` (tsne.cc lines 86-122): run the
loop for at most 50 iterations against `log(required_perplexity)` and return
the final probability row together with the final beta. -/
noncomputable def binary_search_perplexity {n : ℕ} (Di : Fin n → ℝ)
    (required_perplexity : ℝ) (i : Fin n) (tolerance : ℝ) :
    (Fin n → ℝ) × ℝ :=
  let st := bspLoop Di (Real.log required_perplexity) tolerance 50 (bspInit Di i)
  (st.P, st.beta)

/-- Predicate `betamin ≤ beta` when `betamin` is finite (trivially true while it is
still `-INFINITY`). -/
def minLeBeta {n : ℕ} (st : BspState n) : Prop :=
  match st.betamin with
  | none => True
  | some a => a ≤ st.beta

/-- Predicate `beta ≤ betamax` when `betamax` is finite (trivially true while it is
still `+INFINITY`). -/
def betaLeMax {n : ℕ} (st : BspState n) : Prop :=
  match st.betamax with
  | none => True
  | some b => st.beta ≤ b

/-- Order on `betamin` values across iterations, with `none = -INFINITY` at
the bottom: `minLe a b` says the bound `a` is at most the bound `b`. -/
def minLe : Option ℝ → Option ℝ → Prop :=
  fun a b =>
    match a, b with
    | none, _ => True
    | some _, none => False
    | some x, some y => x ≤ y

/-- Order on `betamax` values across iterations, with `none = +INFINITY` at
the top: `maxLe a b` says the bound `a` is at most the bound `b`. -/
def maxLe : Option ℝ → Option ℝ → Prop :=
  fun a b =>
    match a, b with
    | _, none => True
    | none, some _ => False
    | some x, some y => x ≤ y

/-- Invariant of the search state: positive beta bracketed (non-strictly)
by whichever bounds are already finite. -/
def bspInv {n : ℕ} (st : BspState n) : Prop :=
  0 < st.beta ∧ minLeBeta st ∧ betaLeMax st

/-- A dense real matrix with explicit dimensions, embedding
`boost::multi_array<float, 2>`. -/
structure Mat where
  rows : ℕ
  cols : ℕ
  entry : Fin rows → Fin cols → ℝ

/-- The exceptions thrown by tsne.cc, plus the outcome of the out-of-bounds
read `P_row[n]` of line 151, which C++ leaves undefined and which a total
embedding must surface as its own failure. -/
inductive TsneError
  | notSquare      -- line 132: "D is not square"
  | rowSize        -- line 150: "P_row has the wrong size"
  | oobRead        -- line 151 reads P_row[n], one past the end of the row
  | diagNonzero    -- line 152: "P_row diagonal entry was not zero"
  | probsShape     -- line 168: "probabilities were the wrong shape"
deriving DecidableEq

/-- Total indexing of a length-`n` row at an arbitrary machine index `k`,
yielding `none` when `k` is out of bounds. -/
def rowGet? {n : ℕ} (r : Fin n → ℝ) (k : ℕ) : Option ℝ :=
  if h : k < n then some (r ⟨k, h⟩) else none

/-- The per-row validation of `distances_to_probabilities` (tsne.cc lines
149-152): the size check (a row of our embedding has length `n` by
construction, so `P_row.size() != n` is `n ≠ n`) followed by the diagonal
check, which reads `P_row[n]`. -/
noncomputable def validate_row {n : ℕ} (P_row : Fin n → ℝ) :
    Except TsneError Unit :=
  if n ≠ n then .error .rowSize
  else
    match rowGet? P_row n with
    | none => .error .oobRead
    | some v => if v ≠ 0 then .error .diagNonzero else .ok ()

/-- The row loop of `distances_to_probabilities` (tsne.cc lines 140-155):
for each listed row index, extract the row, calibrate it, validate it, and
collect the calibrated rows; the first thrown exception aborts the loop. -/
noncomputable def processRows (D : Mat) (hsq : D.cols = D.rows)
    (tol perp : ℝ) :
    List (Fin D.rows) → Except TsneError (List (Fin D.rows → ℝ))
  | [] => .ok []
  | i :: rest =>
      let D_row : Fin D.rows → ℝ := fun j => D.entry i (Fin.cast hsq.symm j)
      let pb := binary_search_perplexity D_row perp i tol
      match validate_row pb.1 with
      | .error e => .error e
      | .ok _ =>
          match processRows D hsq tol perp rest with
          | .error e => .error e
          | .ok rows => .ok (pb.1 :: rows)

/-- Embedding of `distances_to_probabilities` (tsne.cc lines 125-160):
the shape check of lines 130-132, then the row loop over `i = 0 … n-1`,
then assembly of the result matrix from the collected rows. -/
noncomputable def distances_to_probabilities (D : Mat) (tol perp : ℝ) :
    Except TsneError Mat :=
  if hsq : D.cols = D.rows then
    match processRows D hsq tol perp (List.finRange D.rows) with
    | .error e => .error e
    | .ok prows =>
        .ok { rows := D.rows, cols := D.rows,
              entry := fun i j => (prows.getD i.val (fun _ => 0)) j }
  else .error .notSquare

/-- Embedding of `tsne` (tsne.cc lines 162-174): the shape check of lines
166-168, then allocation of the `n × num_dims` result `Y`, whose entries
`boost::multi_array` value-initializes to zero, and which is returned
unchanged (the optimizer of the reference exists only as pseudocode inside
an `#if 0` block). -/
noncomputable def tsne (probs : Mat) (num_dims : ℕ) : Except TsneError Mat :=
  if probs.rows = probs.cols then
    .ok { rows := probs.rows, cols := num_dims, entry := fun _ _ => 0 }
  else .error .probsShape

/-- The concrete distance row used to exercise the search loop: both
entries `-1`. -/
noncomputable def rowNeg1 : Fin 2 → ℝ := fun _ => -1

/-- The concrete distance row `(0, 1, 2)` used to compare the weight
formula of the source against the one stated by the spec. -/
noncomputable def row012 : Fin 3 → ℝ := fun j => (j.val : ℝ)

/-- The relation `minLe` is reflexive. -/
lemma minLe_refl (a : Option ℝ) : minLe a a := by
  cases a <;> simp [minLe]

/-- The relation `maxLe` is reflexive. -/
lemma maxLe_refl (a : Option ℝ) : maxLe a a := by
  cases a <;> simp [maxLe]

/-- The relation `minLe` is transitive. -/
lemma minLe_trans (a b c : Option ℝ) (h1 : minLe a b) (h2 : minLe b c) :
    minLe a c := by
  cases a <;> cases b <;> cases c <;> simp [minLe] at * <;> linarith

/-- The relation `maxLe` is transitive. -/
lemma maxLe_trans (a b c : Option ℝ) (h1 : maxLe a b) (h2 : maxLe b c) :
    maxLe a c := by
  cases a <;> cases b <;> cases c <;> simp [maxLe] at * <;> linarith

/-- One search step preserves the bracketing invariant, can only raise
`betamin`, and can only lower `betamax`. -/
lemma bspStep_inv {n : ℕ} (D : Fin n → ℝ) (logT : ℝ) (st : BspState n)
    (h : bspInv st) :
    bspInv (bspStep D logT st) ∧
    minLe st.betamin (bspStep D logT st).betamin ∧
    maxLe (bspStep D logT st).betamax st.betamax := by
  obtain ⟨hb, hmin, hmax⟩ := h
  obtain ⟨bmin, bmax, beta, H, P, iters⟩ := st
  simp only [minLeBeta] at hmin
  simp only [betaLeMax] at hmax
  simp only at hb
  unfold bspStep
  by_cases hlt : logT < H
  · rw [if_pos hlt]
    cases bmax with
    | none =>
      simp only [bspInv, minLeBeta, betaLeMax, minLe, maxLe, bspNext]
      refine ⟨⟨by linarith, by linarith, trivial⟩, ?_, trivial⟩
      cases bmin with
      | none => trivial
      | some a => exact le_trans hmin (by linarith)
    | some bx =>
      simp only at hmax
      simp only [bspInv, minLeBeta, betaLeMax, minLe, maxLe, bspNext]
      refine ⟨⟨by linarith, by linarith, by linarith⟩, ?_, le_refl _⟩
      cases bmin with
      | none => trivial
      | some a => exact hmin
  · rw [if_neg hlt]
    cases bmin with
    | none =>
      simp only [bspInv, minLeBeta, betaLeMax, minLe, maxLe, bspNext]
      refine ⟨⟨by linarith, trivial, by linarith⟩, trivial, ?_⟩
      cases bmax with
      | none => trivial
      | some bx => simp only at hmax; exact hmax
    | some a =>
      simp only at hmin
      simp only [bspInv, minLeBeta, betaLeMax, minLe, maxLe, bspNext]
      refine ⟨⟨by linarith, by linarith, by linarith⟩, le_refl _, ?_⟩
      cases bmax with
      | none => trivial
      | some bx => simp only at hmax; exact hmax

/-- The search loop preserves the bracketing invariant, never lowers
`betamin`, and never raises `betamax`. -/
lemma bspLoop_inv {n : ℕ} (D : Fin n → ℝ) (logT tol : ℝ) (f : ℕ)
    (st : BspState n) (h : bspInv st) :
    bspInv (bspLoop D logT tol f st) ∧
    minLe st.betamin (bspLoop D logT tol f st).betamin ∧
    maxLe (bspLoop D logT tol f st).betamax st.betamax := by
  induction f generalizing st with
  | zero => exact ⟨h, minLe_refl _, maxLe_refl _⟩
  | succ f ih =>
    rw [bspLoop]
    split
    · exact ⟨h, minLe_refl _, maxLe_refl _⟩
    · obtain ⟨h1, h2, h3⟩ := bspStep_inv D logT st h
      obtain ⟨h4, h5, h6⟩ := ih (bspStep D logT st) h1
      exact ⟨h4, minLe_trans _ _ _ h2 h5, maxLe_trans _ _ _ h6 h3⟩

/-- The initial search state satisfies the bracketing invariant. -/
lemma bspInv_init {n : ℕ} (D : Fin n → ℝ) (i : Fin n) :
    bspInv (bspInit D i) :=
  ⟨one_pos, trivial, trivial⟩

/-- One search step increments the iteration counter by exactly one. -/
lemma bspStep_iters {n : ℕ} (D : Fin n → ℝ) (logT : ℝ) (st : BspState n) :
    (bspStep D logT st).iters = st.iters + 1 := by
  unfold bspStep
  split
  · split <;> rfl
  · split <;> rfl

/-- The search loop runs at most `fuel` further iterations. -/
lemma bspLoop_iters {n : ℕ} (D : Fin n → ℝ) (logT tol : ℝ) (f : ℕ)
    (st : BspState n) :
    (bspLoop D logT tol f st).iters ≤ st.iters + f := by
  induction f generalizing st with
  | zero => simp [bspLoop]
  | succ f ih =>
    rw [bspLoop]
    split
    · omega
    · have h1 := ih (bspStep D logT st)
      rw [bspStep_iters] at h1
      omega

/-- A converged state is a fixed point of the search loop: once
`|H - logT| ≤ tol` no further iteration is executed. -/
lemma bspLoop_fix {n : ℕ} (D : Fin n → ℝ) (logT tol : ℝ) (f : ℕ)
    (st : BspState n) (h : |st.H - logT| ≤ tol) :
    bspLoop D logT tol f st = st := by
  cases f with
  | zero => rfl
  | succ f => rw [bspLoop, if_pos h]

/-- Claim C5 (amended): across the iterations of the binary search run by
`binary_search_perplexity` (initial state `bspInit`, up to 50 iterations),
`betamin` never decreases and `betamax` never increases; once a bound is
finite the current beta satisfies `betamin ≤ beta` resp. `beta ≤ betamax`
— non-strictly, since an iteration that lowers beta with `betamin` already
finite leaves `beta` equal to the new `betamax`. -/
theorem c5_bounds_amended {n : ℕ} (D : Fin n → ℝ) (T tol : ℝ) (i : Fin n)
    (k j : ℕ) :
    minLe ((bspLoop D (Real.log T) tol k (bspInit D i)).betamin)
        ((bspLoop D (Real.log T) tol j
            (bspLoop D (Real.log T) tol k (bspInit D i))).betamin) ∧
    maxLe ((bspLoop D (Real.log T) tol j
            (bspLoop D (Real.log T) tol k (bspInit D i))).betamax)
        ((bspLoop D (Real.log T) tol k (bspInit D i)).betamax) ∧
    minLeBeta (bspLoop D (Real.log T) tol j
        (bspLoop D (Real.log T) tol k (bspInit D i))) ∧
    betaLeMax (bspLoop D (Real.log T) tol j
        (bspLoop D (Real.log T) tol k (bspInit D i))) := by
  obtain ⟨h1, -, -⟩ :=
    bspLoop_inv D (Real.log T) tol k (bspInit D i) (bspInv_init D i)
  obtain ⟨⟨-, h5, h6⟩, h2, h3⟩ :=
    bspLoop_inv D (Real.log T) tol j
      (bspLoop D (Real.log T) tol k (bspInit D i)) h1
  exact ⟨h2, h3, h5, h6⟩

/-- Claim C7: the binary search executes at most 50 iterations, and a state
that already satisfies `|H - log T| ≤ tol` is a fixed point of the loop
(the search stops as soon as the tolerance is met); the embedded search is
a total function, so no failure is ever signalled, even without
convergence. -/
theorem c7_iteration_bound {n : ℕ} (D : Fin n → ℝ) (T tol : ℝ) (i : Fin n) :
    (bspLoop D (Real.log T) tol 50 (bspInit D i)).iters ≤ 50 ∧
    (∀ (f : ℕ) (st : BspState n),
        |st.H - Real.log T| ≤ tol → bspLoop D (Real.log T) tol f st = st) := by
  constructor
  · have h1 := bspLoop_iters D (Real.log T) tol 50 (bspInit D i)
    simpa [bspInit] using h1
  · exact fun f st h => bspLoop_fix D (Real.log T) tol f st h

/-- At the zero distance row with `i = 0`, the initial `H` is zero: the
weights are `(0, 1)`, so `tot = 1`, `log tot = 0` and the dot product
vanishes. -/
lemma bspInit_zero_H : (bspInit (fun _ : Fin 2 => (0 : ℝ)) 0).H = 0 := by
  show (perplexity_and_prob (fun _ : Fin 2 => (0 : ℝ)) 1 (some 0)).1 = 0
  unfold perplexity_and_prob papTot papWeights
  norm_num [Fin.sum_univ_two, Real.exp_zero, Real.log_one]

/-- Witness for C7 at the concrete input: the zero distance row with
target perplexity 1 and tolerance 1 converges immediately, so the loop
returns the initial state. -/
theorem c7_iteration_bound_witness :
    (|(bspInit (fun _ : Fin 2 => (0 : ℝ)) 0).H - Real.log 1| ≤ 1) ∧
    bspLoop (fun _ : Fin 2 => (0 : ℝ)) (Real.log 1) 1 50
        (bspInit (fun _ : Fin 2 => (0 : ℝ)) 0) =
      bspInit (fun _ : Fin 2 => (0 : ℝ)) 0 := by
  have hH : |(bspInit (fun _ : Fin 2 => (0 : ℝ)) 0).H - Real.log 1| ≤ 1 := by
    rw [bspInit_zero_H, Real.log_one]
    norm_num
  exact ⟨hH, (c7_iteration_bound (fun _ => 0) 1 1 0).2 50 _ hH⟩

/-- Projection lemmas for `bspInit` and `bspNext`. -/
lemma bspInit_H {n : ℕ} (D : Fin n → ℝ) (i : Fin n) :
    (bspInit D i).H = (perplexity_and_prob D 1 (some i)).1 := rfl

lemma bspInit_betamin {n : ℕ} (D : Fin n → ℝ) (i : Fin n) :
    (bspInit D i).betamin = none := rfl

lemma bspInit_betamax {n : ℕ} (D : Fin n → ℝ) (i : Fin n) :
    (bspInit D i).betamax = none := rfl

lemma bspInit_beta {n : ℕ} (D : Fin n → ℝ) (i : Fin n) :
    (bspInit D i).beta = 1 := rfl

lemma bspInit_iters {n : ℕ} (D : Fin n → ℝ) (i : Fin n) :
    (bspInit D i).iters = 0 := rfl

lemma bspNext_H {n : ℕ} (D : Fin n → ℝ) (bmin bmax : Option ℝ) (beta : ℝ)
    (iters : ℕ) :
    (bspNext D bmin bmax beta iters).H = (perplexity_and_prob D beta none).1 :=
  rfl

lemma bspNext_P {n : ℕ} (D : Fin n → ℝ) (bmin bmax : Option ℝ) (beta : ℝ)
    (iters : ℕ) :
    (bspNext D bmin bmax beta iters).P = (perplexity_and_prob D beta none).2 :=
  rfl

lemma bspNext_betamin {n : ℕ} (D : Fin n → ℝ) (bmin bmax : Option ℝ)
    (beta : ℝ) (iters : ℕ) :
    (bspNext D bmin bmax beta iters).betamin = bmin := rfl

lemma bspNext_betamax {n : ℕ} (D : Fin n → ℝ) (bmin bmax : Option ℝ)
    (beta : ℝ) (iters : ℕ) :
    (bspNext D bmin bmax beta iters).betamax = bmax := rfl

lemma bspNext_beta {n : ℕ} (D : Fin n → ℝ) (bmin bmax : Option ℝ)
    (beta : ℝ) (iters : ℕ) :
    (bspNext D bmin bmax beta iters).beta = beta := rfl

lemma bspNext_iters {n : ℕ} (D : Fin n → ℝ) (bmin bmax : Option ℝ)
    (beta : ℝ) (iters : ℕ) :
    (bspNext D bmin bmax beta iters).iters = iters + 1 := rfl

/-- With `i = 0`, the weights of `rowNeg1` at `beta = 1` are `(0, exp(-1))`,
so `tot = exp(-1)`. -/
lemma papTot_row1_one : papTot rowNeg1 1 (some 0) = Real.exp (-1) := by
  unfold papTot papWeights rowNeg1
  rw [Fin.sum_univ_two, if_pos rfl,
    if_neg (by decide : ¬ (some (1 : Fin 2) = some (0 : Fin 2)))]
  norm_num

/-- The initial `H` of the search at `rowNeg1`: `log(exp(-1)) - 1 = -2`. -/
lemma papH_row1_one : (perplexity_and_prob rowNeg1 1 (some 0)).1 = -2 := by
  have h2 : (∑ j, rowNeg1 j * papWeights rowNeg1 1 (some 0) j) =
      -Real.exp (-1) := by
    unfold papWeights rowNeg1
    rw [Fin.sum_univ_two, if_pos rfl,
      if_neg (by decide : ¬ (some (1 : Fin 2) = some (0 : Fin 2)))]
    norm_num
  unfold perplexity_and_prob
  rw [papTot_row1_one, h2, Real.log_exp, one_mul, neg_div,
    div_self (Real.exp_ne_zero _)]
  norm_num

/-- Without a designated index (the recomputation of tsne.cc line 118),
every weight of `rowNeg1` at `beta = 2` is `exp(-2)`. -/
lemma papWeights_row1_two (j : Fin 2) :
    papWeights rowNeg1 2 none j = Real.exp (-2) := by
  unfold papWeights rowNeg1
  rw [if_neg (Option.some_ne_none j)]
  norm_num

lemma papTot_row1_two : papTot rowNeg1 2 none = 2 * Real.exp (-2) := by
  unfold papTot
  rw [Fin.sum_univ_two, papWeights_row1_two, papWeights_row1_two]
  ring

/-- The recomputed `H` of the search at `rowNeg1`, `beta = 2`:
`log(2 exp(-2)) - 2 = log 2 - 4`. -/
lemma papH_row1_two : (perplexity_and_prob rowNeg1 2 none).1 =
    Real.log 2 - 4 := by
  have h2 : (∑ j, rowNeg1 j * papWeights rowNeg1 2 none j) =
      -(2 * Real.exp (-2)) := by
    rw [Fin.sum_univ_two, papWeights_row1_two, papWeights_row1_two]
    unfold rowNeg1
    ring
  have h3 : (2 : ℝ) * (-(2 * Real.exp (-2))) / (2 * Real.exp (-2)) = -2 := by
    rw [div_eq_iff (by positivity : (2 : ℝ) * Real.exp (-2) ≠ 0)]
    ring
  unfold perplexity_and_prob
  rw [papTot_row1_two, h2, h3,
    Real.log_mul two_ne_zero (Real.exp_ne_zero _), Real.log_exp]
  ring

/-- The recomputed row of the search at `rowNeg1`, `beta = 2`: uniform
halves — in particular the self entry is no longer zero. -/
lemma papP_row1_two : (perplexity_and_prob rowNeg1 2 none).2 =
    fun _ => (1 / 2 : ℝ) := by
  funext j
  show papWeights rowNeg1 2 none j / papTot rowNeg1 2 none = 1 / 2
  rw [papWeights_row1_two, papTot_row1_two,
    div_eq_div_iff (by positivity) (by norm_num : (2 : ℝ) ≠ 0)]
  ring

/-- The loop entry test at the initial state: `|(-2) - (-3)| = 1 > 1/10`. -/
lemma row1_cond0 : ¬ |(-2 : ℝ) - (-3)| ≤ (1 / 10 : ℝ) := by
  rw [show ((-2 : ℝ) - (-3)) = 1 by norm_num, abs_one]
  norm_num

/-- The first branch test: `H = -2` exceeds `log T = -3`. -/
lemma row1_branch0 : (-3 : ℝ) < -2 := by norm_num

/-- The value `log 2` is below `9/10`. -/
lemma log_two_lt : Real.log 2 < 9 / 10 :=
  lt_trans Real.log_two_lt_d9 (by norm_num)

/-- The loop entry test at the recomputed state:
`|log 2 - 4 - (-3)| = 1 - log 2 > 1/10`. -/
lemma row1_cond1 : ¬ |Real.log 2 - 4 - (-3)| ≤ (1 / 10 : ℝ) := by
  have h1 : Real.log 2 - 4 - (-3) = Real.log 2 - 1 := by ring
  have h2 : Real.log 2 - 1 < 0 := by linarith [log_two_lt]
  rw [h1, abs_of_neg h2, not_le]
  linarith [log_two_lt]

/-- The later branch tests: `H = log 2 - 4` does not exceed `log T = -3`. -/
lemma row1_branch1 : ¬ ((-3 : ℝ) < Real.log 2 - 4) := by
  rw [not_lt]
  linarith [log_two_lt]

/-- From the third loop check on, the search state at `rowNeg1` is stuck:
the `else` branch keeps `beta = betamax = 2` forever. -/
lemma bspLoop_row1_stable (f : ℕ) :
    ∀ st : BspState 2, st.betamin = some 1 → st.betamax = some 2 →
      st.beta = 2 → st.H = Real.log 2 - 4 → st.P = (fun _ => (1 / 2 : ℝ)) →
      ((bspLoop rowNeg1 (-3) (1 / 10) f st).betamin = some 1 ∧
       (bspLoop rowNeg1 (-3) (1 / 10) f st).betamax = some 2 ∧
       (bspLoop rowNeg1 (-3) (1 / 10) f st).beta = 2 ∧
       (bspLoop rowNeg1 (-3) (1 / 10) f st).P = (fun _ => (1 / 2 : ℝ))) := by
  induction f with
  | zero =>
    intro st h1 h2 h3 h4 h5
    exact ⟨h1, h2, h3, h5⟩
  | succ f ih =>
    intro st h1 h2 h3 h4 h5
    rw [bspLoop, h4, if_neg row1_cond1]
    have hstep : bspStep rowNeg1 (-3) st =
        bspNext rowNeg1 (some 1) (some 2) ((2 + 2) * (1 / 2)) st.iters := by
      unfold bspStep
      rw [h4, if_neg row1_branch1, h1, h3]
    refine ih (bspStep rowNeg1 (-3) st) ?_ ?_ ?_ ?_ ?_
    · rw [hstep, bspNext_betamin]
    · rw [hstep, bspNext_betamax]
    · rw [hstep, bspNext_beta]
      norm_num
    · rw [hstep, bspNext_H,
        show ((2 : ℝ) + 2) * (1 / 2) = 2 by norm_num]
      exact papH_row1_two
    · rw [hstep, bspNext_P,
        show ((2 : ℝ) + 2) * (1 / 2) = 2 by norm_num]
      exact papP_row1_two

/-- The full 50-iteration run of the search at `rowNeg1` with
`log T = -3`, `tol = 1/10`: iteration 1 takes the raise branch
(`betamin := 1`, `beta := 2`), iteration 2 takes the lower branch
(`betamax := 2`, `beta := (2+2)/2 = 2`), and every later iteration
repeats iteration 2, so the final state has `betamin = 1`,
`betamax = beta = 2` and the uniform row of halves. -/
lemma bspRun_row1_fields :
    (bspLoop rowNeg1 (-3) (1 / 10) 50 (bspInit rowNeg1 0)).betamin = some 1 ∧
    (bspLoop rowNeg1 (-3) (1 / 10) 50 (bspInit rowNeg1 0)).betamax = some 2 ∧
    (bspLoop rowNeg1 (-3) (1 / 10) 50 (bspInit rowNeg1 0)).beta = 2 ∧
    (bspLoop rowNeg1 (-3) (1 / 10) 50 (bspInit rowNeg1 0)).P =
      (fun _ => (1 / 2 : ℝ)) := by
  have hs1 : bspStep rowNeg1 (-3) (bspInit rowNeg1 0) =
      bspNext rowNeg1 (some 1) none 2 0 := by
    unfold bspStep
    rw [bspInit_H, papH_row1_one, if_pos row1_branch0, bspInit_betamax,
      bspInit_beta, bspInit_iters]
    norm_num
  have e1 : bspLoop rowNeg1 (-3) (1 / 10) 50 (bspInit rowNeg1 0) =
      bspLoop rowNeg1 (-3) (1 / 10) 49 (bspNext rowNeg1 (some 1) none 2 0) := by
    rw [show (50 : ℕ) = 49 + 1 from rfl, bspLoop, bspInit_H, papH_row1_one,
      if_neg row1_cond0, hs1]
  have hs2 : bspStep rowNeg1 (-3) (bspNext rowNeg1 (some 1) none 2 0) =
      bspNext rowNeg1 (some 1) (some 2) ((2 + 2) * (1 / 2)) 1 := by
    unfold bspStep
    rw [bspNext_H, papH_row1_two, if_neg row1_branch1, bspNext_betamin,
      bspNext_beta, bspNext_iters]
  have e2 : bspLoop rowNeg1 (-3) (1 / 10) 49 (bspNext rowNeg1 (some 1) none 2 0) =
      bspLoop rowNeg1 (-3) (1 / 10) 48
        (bspNext rowNeg1 (some 1) (some 2) ((2 + 2) * (1 / 2)) 1) := by
    rw [show (49 : ℕ) = 48 + 1 from rfl, bspLoop, bspNext_H, papH_row1_two,
      if_neg row1_cond1, hs2]
  rw [e1, e2]
  refine bspLoop_row1_stable 48 _ ?_ ?_ ?_ ?_ ?_
  · rw [bspNext_betamin]
  · rw [bspNext_betamax]
  · rw [bspNext_beta]
    norm_num
  · rw [bspNext_H, show ((2 : ℝ) + 2) * (1 / 2) = 2 by norm_num]
    exact papH_row1_two
  · rw [bspNext_P, show ((2 : ℝ) + 2) * (1 / 2) = 2 by norm_num]
    exact papP_row1_two

/-- Claim C2, evaluated at the failing input `Di = (-1,-1)`,
`required_perplexity = exp(-3)`, `i = 0`, `tolerance = 1/10`: the returned
row is `(1/2, 1/2)`, so its entry at the self index `0` is `1/2`, not `0`,
and the remaining entries sum to `1/2`, not `1` — the loop recomputes the
row without the self index (tsne.cc line 118). -/
theorem c2_nonzero_self :
    (binary_search_perplexity rowNeg1 (Real.exp (-3)) 0 (1 / 10)).1 0 =
        1 / 2 ∧
    (binary_search_perplexity rowNeg1 (Real.exp (-3)) 0 (1 / 10)).1 1 =
        1 / 2 := by
  obtain ⟨-, -, -, hP⟩ := bspRun_row1_fields
  have h1 : (binary_search_perplexity rowNeg1 (Real.exp (-3)) 0 (1 / 10)).1 =
      (bspLoop rowNeg1 (-3) (1 / 10) 50 (bspInit rowNeg1 0)).P := by
    unfold binary_search_perplexity
    rw [Real.log_exp]
  rw [h1, hP]
  exact ⟨rfl, rfl⟩

/-- Counterexample to claim C5 as stated: at the input `Di = (-1,-1)`,
`required_perplexity = exp(-3)`, `i = 0`, `tolerance = 1/10`, the final
state of the search has both bounds finite (`betamin = 1`, `betamax = 2`)
yet `beta = 2 = betamax`, so the strict bracketing
`betamin < beta < betamax` fails. -/
theorem c5_strict_bounds_cex :
    (bspLoop rowNeg1 (Real.log (Real.exp (-3))) (1 / 10) 50
        (bspInit rowNeg1 0)).betamin = some 1 ∧
    (bspLoop rowNeg1 (Real.log (Real.exp (-3))) (1 / 10) 50
        (bspInit rowNeg1 0)).betamax = some 2 ∧
    ¬ ((bspLoop rowNeg1 (Real.log (Real.exp (-3))) (1 / 10) 50
        (bspInit rowNeg1 0)).beta < 2) := by
  rw [Real.log_exp]
  obtain ⟨h1, h2, h3, -⟩ := bspRun_row1_fields
  exact ⟨h1, h2, by rw [h3]; exact lt_irrefl 2⟩

/-- Values of the coordinates of `row012` as reals. -/
lemma row012_val1 : ((1 : Fin 3).val : ℝ) = 1 := by
  rw [show (1 : Fin 3).val = 1 from rfl]
  norm_num

lemma row012_val2 : ((2 : Fin 3).val : ℝ) = 2 := by
  rw [show (2 : Fin 3).val = 2 from rfl]
  norm_num

/-- The total weight of the source formula at `row012`, `beta = 1`,
`i = 0`: the self weight is zeroed, leaving `exp 1 + exp 2` — note the
positive exponents produced by `exp(D * beta)`. -/
lemma papTot_row012 : papTot row012 1 (some 0) = Real.exp 1 + Real.exp 2 := by
  unfold papTot papWeights row012
  rw [Fin.sum_univ_three, if_pos rfl,
    if_neg (by decide : ¬ (some (1 : Fin 3) = some (0 : Fin 3))),
    if_neg (by decide : ¬ (some (2 : Fin 3) = some (0 : Fin 3))),
    row012_val1, row012_val2]
  norm_num

/-- The source-normalized entry at index 1: `exp 1 / (exp 1 + exp 2) =
1 / (1 + exp 1)`. -/
lemma papP_row012_one :
    (perplexity_and_prob row012 1 (some 0)).2 1 = 1 / (1 + Real.exp 1) := by
  show papWeights row012 1 (some 0) 1 / papTot row012 1 (some 0) =
    1 / (1 + Real.exp 1)
  rw [papTot_row012]
  unfold papWeights row012
  rw [if_neg (by decide : ¬ (some (1 : Fin 3) = some (0 : Fin 3))),
    row012_val1, one_mul]
  have he2 : Real.exp 2 = Real.exp 1 * Real.exp 1 := by
    rw [← Real.exp_add]
    norm_num
  rw [he2, div_eq_div_iff (by positivity) (by positivity)]
  ring

/-- The total weight of the spec formula (`exp(-beta·D)`) at `row012`,
`beta = 1`, `i = 0`. -/
lemma specTot_row012 :
    (∑ k, specWeights row012 1 (some 0) k) = Real.exp (-1) + Real.exp (-2) := by
  unfold specWeights row012
  rw [Fin.sum_univ_three, if_pos rfl,
    if_neg (by decide : ¬ (some (1 : Fin 3) = some (0 : Fin 3))),
    if_neg (by decide : ¬ (some (2 : Fin 3) = some (0 : Fin 3))),
    row012_val1, row012_val2]
  norm_num

/-- The spec-normalized entry at index 1:
`exp(-1) / (exp(-1) + exp(-2)) = exp 1 / (1 + exp 1)`. -/
lemma specP_row012_one :
    specProbRow row012 1 (some 0) 1 = Real.exp 1 / (1 + Real.exp 1) := by
  unfold specProbRow
  rw [specTot_row012]
  unfold specWeights row012
  rw [if_neg (by decide : ¬ (some (1 : Fin 3) = some (0 : Fin 3))),
    row012_val1]
  have h1 : Real.exp (-1) = (Real.exp 1)⁻¹ := by
    rw [Real.exp_neg]
  have h2 : Real.exp (-2) = (Real.exp 1 * Real.exp 1)⁻¹ := by
    rw [Real.exp_neg, ← Real.exp_add]
    norm_num
  rw [show (-(1 : ℝ)) * 1 = -1 by norm_num, h1, h2]
  have hne := Real.exp_ne_zero 1
  field_simp
  ring

/-- Claim C1, evaluated at the failing input `D = (0,1,2)`, `beta = 1`,
`i = 0`: the source computes `exp(D * beta)` (tsne.cc line 27), not the
`exp(-beta * D)` the spec states, so its normalized entry at index 1 is
`1/(1+e)` while the spec formula yields `e/(1+e)`, and the two differ. -/
theorem c1_exp_sign :
    (perplexity_and_prob row012 1 (some 0)).2 1 = 1 / (1 + Real.exp 1) ∧
    specProbRow row012 1 (some 0) 1 = Real.exp 1 / (1 + Real.exp 1) ∧
    (perplexity_and_prob row012 1 (some 0)).2 1 ≠
      specProbRow row012 1 (some 0) 1 := by
  refine ⟨papP_row012_one, specP_row012_one, ?_⟩
  rw [papP_row012_one, specP_row012_one]
  intro h
  have hpos : (0 : ℝ) < 1 + Real.exp 1 := by positivity
  rw [div_eq_div_iff (ne_of_gt hpos) (ne_of_gt hpos)] at h
  have hgt := Real.exp_one_gt_d9
  nlinarith

/-- Reading a length-`n` row at machine index `n` is out of bounds. -/
lemma rowGet_n_none {n : ℕ} (r : Fin n → ℝ) : rowGet? r n = none := by
  unfold rowGet?
  exact dif_neg (lt_irrefl n)

/-- The per-row validation always aborts at the out-of-bounds diagonal
read, whatever the row holds. -/
lemma validate_row_oob {n : ℕ} (r : Fin n → ℝ) :
    validate_row r = Except.error TsneError.oobRead := by
  unfold validate_row
  rw [if_neg (by simp), rowGet_n_none]

/-- The row loop can only abort with the out-of-bounds failure. -/
lemma processRows_error (D : Mat) (hsq : D.cols = D.rows) (tol perp : ℝ)
    (l : List (Fin D.rows)) (e : TsneError)
    (h : processRows D hsq tol perp l = Except.error e) :
    e = TsneError.oobRead := by
  cases l with
  | nil => simp [processRows] at h
  | cons a rest =>
    rw [processRows, validate_row_oob] at h
    exact (Except.error.injEq _ _ ▸ h).symm

/-- On any square matrix with at least one row, the row loop hits the
out-of-bounds diagonal read on its first row and the whole conversion
aborts. -/
lemma d2p_oob (D : Mat) (tol perp : ℝ) (hsq : D.cols = D.rows)
    (h1 : 1 ≤ D.rows) :
    distances_to_probabilities D tol perp = Except.error TsneError.oobRead := by
  unfold distances_to_probabilities
  rw [dif_pos hsq]
  cases hfr : List.finRange D.rows with
  | nil =>
    exfalso
    have := List.length_finRange D.rows
    rw [hfr] at this
    simp at this
    omega
  | cons a rest =>
    rw [processRows, validate_row_oob]

/-- Claim C8: `vectors_to_distances` computes the squared Euclidean
distance between points `i` and `j` via the norm-and-inner-product
identity; the result is symmetric and its diagonal entries are exactly
zero. -/
theorem c8_distances {n d : ℕ} (X : Fin n → Fin d → ℝ) (i j : Fin n) :
    vectors_to_distances X i j = ∑ k, (X i k - X j k) ^ 2 ∧
    vectors_to_distances X i j = vectors_to_distances X j i ∧
    vectors_to_distances X i i = 0 := by
  have hsym : XXT X i j = XXT X j i :=
    Finset.sum_congr rfl fun k _ => mul_comm _ _
  have hdiag : XXT X i i = sum_X X i := rfl
  refine ⟨?_, ?_, ?_⟩
  · unfold vectors_to_distances sum_X XXT
    rw [show (∑ k, (X i k - X j k) ^ 2) =
          ∑ k, (X i k * X i k + X j k * X j k - 2 * (X i k * X j k)) from
        Finset.sum_congr rfl fun k _ => by ring]
    rw [Finset.sum_sub_distrib, Finset.sum_add_distrib, ← Finset.mul_sum]
  · unfold vectors_to_distances
    rw [hsym]
    ring
  · unfold vectors_to_distances
    rw [hdiag]
    ring

/-- Claim C6: with a designated index `i` and `n ≥ 2`, the normalized row
returned by `perplexity_and_prob` sums to `1` and its `i`-th entry is
exactly `0`. -/
theorem c6_row_normalized {n : ℕ} (D : Fin n → ℝ) (beta : ℝ) (i : Fin n)
    (h2 : 2 ≤ n) :
    (∑ j, (perplexity_and_prob D beta (some i)).2 j) = 1 ∧
    (perplexity_and_prob D beta (some i)).2 i = 0 := by
  have hnn : ∀ j, 0 ≤ papWeights D beta (some i) j := by
    intro j
    unfold papWeights
    split
    · exact le_refl 0
    · exact (Real.exp_pos _).le
  have hj : ∃ j : Fin n, j ≠ i := by
    rcases Nat.lt_or_ge i.val 1 with h | h
    · refine ⟨⟨1, by omega⟩, fun hh => ?_⟩
      have := congrArg Fin.val hh
      simp at this
      omega
    · refine ⟨⟨0, by omega⟩, fun hh => ?_⟩
      have := congrArg Fin.val hh
      simp at this
      omega
  obtain ⟨j₀, hj₀⟩ := hj
  have hpos : 0 < papWeights D beta (some i) j₀ := by
    unfold papWeights
    rw [if_neg (by simpa using hj₀)]
    exact Real.exp_pos _
  have htot : 0 < papTot D beta (some i) :=
    Finset.sum_pos' (fun j _ => hnn j) ⟨j₀, Finset.mem_univ _, hpos⟩
  constructor
  · show (∑ j, papWeights D beta (some i) j / papTot D beta (some i)) = 1
    rw [← Finset.sum_div]
    exact div_self (ne_of_gt htot)
  · show papWeights D beta (some i) i / papTot D beta (some i) = 0
    unfold papWeights
    rw [if_pos rfl]
    exact zero_div _

/-- Witness for C6 at the concrete input `n = 2`, `D = (0,0)`, `beta = 1`,
`i = 0`. -/
theorem c6_row_normalized_witness :
    (2 ≤ 2) ∧
    ((∑ j, (perplexity_and_prob (fun _ : Fin 2 => (0 : ℝ)) 1 (some 0)).2 j) = 1 ∧
     (perplexity_and_prob (fun _ : Fin 2 => (0 : ℝ)) 1 (some 0)).2 0 = 0) :=
  ⟨by norm_num, c6_row_normalized (fun _ => 0) 1 0 (by norm_num)⟩

/-- Claim C4: the diagonal validation of `distances_to_probabilities` reads
the calibrated row at machine index `n`, one past its last valid index, so
in the total embedding the read yields `none` for every row, on every row
iteration. -/
theorem c4_diag_read_none :
    (∀ (n : ℕ) (r : Fin n → ℝ), rowGet? r n = none) ∧
    (∀ (n : ℕ) (r : Fin n → ℝ),
        validate_row r = Except.error TsneError.oobRead) :=
  ⟨fun _ r => rowGet_n_none r, fun _ r => validate_row_oob r⟩

/-- Claim C3, evaluated at the failing input: on the square 2×2 zero
distance matrix every calibrated row has the right length, yet the run
aborts at the out-of-bounds diagonal read of `P_row[n]` instead of
checking the `i`-th entry. -/
theorem c3_oob_abort :
    distances_to_probabilities ⟨2, 2, fun _ _ => 0⟩ (1 / 100000) 30 =
      Except.error TsneError.oobRead :=
  d2p_oob _ _ _ rfl (by norm_num)

/-- Counterexample to claim C9 as stated: the 1×1 zero matrix is square,
yet `distances_to_probabilities` aborts with an error (the out-of-bounds
diagonal read), so the conversion does not raise an error only on
non-square inputs. -/
theorem c9_square_error_cex :
    (Mat.mk 1 1 (fun _ _ => 0)).cols = (Mat.mk 1 1 (fun _ _ => 0)).rows ∧
    distances_to_probabilities (Mat.mk 1 1 (fun _ _ => 0)) 1 30 =
      Except.error TsneError.oobRead :=
  ⟨rfl, d2p_oob _ _ _ rfl (by norm_num)⟩

/-- Claim C9 (amended): `distances_to_probabilities` raises the not-square
shape error exactly on non-square inputs and `tsne` raises its shape error
exactly on non-square inputs; however, on every square input with at least
one row the conversion still aborts, with the out-of-bounds diagonal-read
failure, so an error-free run needs a non-square-free 0×0 input. -/
theorem c9_shape_errors_amended :
    (∀ (D : Mat) (tol perp : ℝ),
        distances_to_probabilities D tol perp =
            Except.error TsneError.notSquare ↔ D.cols ≠ D.rows) ∧
    (∀ (P : Mat) (d : ℕ),
        tsne P d = Except.error TsneError.probsShape ↔ P.rows ≠ P.cols) ∧
    (∀ (D : Mat) (tol perp : ℝ), D.cols = D.rows → 1 ≤ D.rows →
        distances_to_probabilities D tol perp =
          Except.error TsneError.oobRead) := by
  refine ⟨?_, ?_, fun D tol perp h h1 => d2p_oob D tol perp h h1⟩
  · intro D tol perp
    constructor
    · intro h
      intro hsq
      unfold distances_to_probabilities at h
      rw [dif_pos hsq] at h
      cases hp : processRows D hsq tol perp (List.finRange D.rows) with
      | error e =>
        rw [hp] at h
        have he : e = TsneError.notSquare := by
          simpa using h
        have := processRows_error D hsq tol perp (List.finRange D.rows) e hp
        rw [he] at this
        exact TsneError.noConfusion this
      | ok prows =>
        rw [hp] at h
        exact Except.noConfusion h
    · intro h
      unfold distances_to_probabilities
      rw [dif_neg h]
  · intro P d
    unfold tsne
    by_cases h : P.rows = P.cols
    · rw [if_pos h]
      simp [h]
    · rw [if_neg h]
      simp [h]

/-- Witness for C9 (amended) at concrete inputs: a 1×2 matrix triggers each
shape error, and the square 3×3 zero matrix triggers the out-of-bounds
abort. -/
theorem c9_shape_errors_amended_witness :
    distances_to_probabilities ⟨1, 2, fun _ _ => 0⟩ 1 30 =
        Except.error TsneError.notSquare ∧
    tsne ⟨1, 2, fun _ _ => 0⟩ 2 = Except.error TsneError.probsShape ∧
    distances_to_probabilities ⟨3, 3, fun _ _ => 0⟩ 1 30 =
        Except.error TsneError.oobRead :=
  ⟨(c9_shape_errors_amended.1 ⟨1, 2, fun _ _ => 0⟩ 1 30).mpr (by norm_num),
   (c9_shape_errors_amended.2.1 ⟨1, 2, fun _ _ => 0⟩ 2).mpr (by norm_num),
   c9_shape_errors_amended.2.2 ⟨3, 3, fun _ _ => 0⟩ 1 30 rfl (by norm_num)⟩

/-- Claim C10: for every square probability matrix, `tsne` returns the
all-zero `n × num_dims` matrix, and any two square probability matrices of
the same size produce identical output. -/
theorem c10_tsne_zero :
    (∀ (probs : Mat) (d : ℕ), probs.rows = probs.cols →
        tsne probs d = Except.ok ⟨probs.rows, d, fun _ _ => 0⟩) ∧
    (∀ (P Q : Mat) (d : ℕ), P.rows = P.cols → Q.rows = Q.cols →
        P.rows = Q.rows → tsne P d = tsne Q d) := by
  have h1 : ∀ (probs : Mat) (d : ℕ), probs.rows = probs.cols →
      tsne probs d = Except.ok ⟨probs.rows, d, fun _ _ => 0⟩ := by
    intro probs d h
    unfold tsne
    rw [if_pos h]
  refine ⟨h1, fun P Q d hP hQ hPQ => ?_⟩
  rw [h1 P d hP, h1 Q d hQ, hPQ]

/-- Witness for C10 at the concrete input: a square 1×1 matrix with entry
`5` maps to the zero 1×2 matrix. -/
theorem c10_tsne_zero_witness :
    (Mat.mk 1 1 (fun _ _ => 5)).rows = (Mat.mk 1 1 (fun _ _ => 5)).cols ∧
    tsne ⟨1, 1, fun _ _ => 5⟩ 2 = Except.ok ⟨1, 2, fun _ _ => 0⟩ :=
  ⟨rfl, c10_tsne_zero.1 ⟨1, 1, fun _ _ => 5⟩ 2 rfl⟩

end Tsne
